import Mathlib

/-!
Verification development for the kubeinfer distributed AI job scheduler.
The definitions below are shallow embeddings of the Go source:

* the `LeaseManager.Run` election loop and its callback discipline,
* the coordinator model server handlers (`handleHealth`,
  `handleListModels`, `handleDownloadModel`) and `ensureModel`,
* the follower file-list parsing in `getFileList`,
* the reconciler (`Reconcile`, `desiredDeployment`),
* the vllm launcher lifecycle (`NewServer`, `Stop`).

Machine integers of the source (int32 counts, ports) are modelled as
`Int`/`Nat`; none of the modelled computations can overflow.  Network and
file-system effects are modelled by passing the relevant state explicitly.
-/

namespace KubeInfer

/-! ## Election loop: `LeaseManager.Run`

One iteration of the ticker branch calls `TryAcquireOrRenew`, which
returns `(acquired, err)`.  `Run` reacts as follows (verbatim from the
source): on `err ≠ nil` it sets `isLeader := false` and `continue`s; on a
nil error it compares `acquired` with the previous flag and fires
`onElected` on a `false → true` change and `onLost` on a `true → false`
change.  On context cancellation it fires `onLost` iff the flag is set. -/

/-- Result of one `TryAcquireOrRenew` call as observed by `Run`:
`ok acquired` is a return with nil error, `err` a return with non-nil
error (for instance a failed conditional lease update, whose
`Update` conflict surfaces as an error through `renewLease` or
`acquireLease`). -/
inductive TickResult where
  | ok (acquired : Bool)
  | err
  deriving DecidableEq, Repr

/-- A callback fired by the election loop. -/
inductive CbEvent where
  | elected
  | lost
  deriving DecidableEq, Repr

/-- One iteration of the ticker branch of `LeaseManager.Run`: returns the
new `isLeader` flag and the callbacks fired, in order. -/
def runStep (isLeader : Bool) : TickResult → Bool × List CbEvent
  | .err => (false, [])
  | .ok acquired =>
    if acquired && !isLeader then (true, [.elected])
    else if !acquired && isLeader then (false, [.lost])
    else (isLeader, [])

/-- Folding `runStep` over a sequence of tick results, accumulating the
fired callbacks. -/
def runTicks (s : Bool) : List TickResult → Bool × List CbEvent
  | [] => (s, [])
  | t :: ts =>
    let st := runStep s t
    let rest := runTicks st.1 ts
    (rest.1, st.2 ++ rest.2)

/-- The leader flag after processing `ts` from a fresh manager (the Go
zero value of `isLeader` is `false`). -/
def stateAfter (ts : List TickResult) : Bool := (runTicks false ts).1

/-- The callbacks fired while processing `ts` from a fresh manager. -/
def eventsOf (ts : List TickResult) : List CbEvent := (runTicks false ts).2

/-- A complete `Run` call: the ticks processed in order, then context
cancellation, which demotes and fires `onLost` iff the flag is set. -/
def runLoop (ts : List TickResult) : List CbEvent :=
  eventsOf ts ++ (if stateAfter ts then [CbEvent.lost] else [])

/-- Tick `k` of a run from a fresh manager fires exactly `onElected`. -/
def electedAt (ts : List TickResult) (k : Nat) : Prop :=
  ∃ t, ts[k]? = some t ∧
    (runStep (stateAfter (ts.take k)) t).2 = [CbEvent.elected]

theorem runTicks_fst_append (s : Bool) (as bs : List TickResult) :
    (runTicks s (as ++ bs)).1 = (runTicks (runTicks s as).1 bs).1 := by
  induction as generalizing s with
  | nil => simp [runTicks]
  | cons a as ih => simp [runTicks, ih]

theorem take_succ_of_get? {α : Type} (l : List α) (k : Nat) (x : α)
    (h : l[k]? = some x) : l.take (k + 1) = l.take k ++ [x] := by
  induction l generalizing k with
  | nil => simp at h
  | cons a l ih =>
    cases k with
    | zero => simp at h; simp [h]
    | succ k => simp at h ⊢; exact ih k h

theorem stateAfter_take_succ (ts : List TickResult) (k : Nat) (t : TickResult)
    (h : ts[k]? = some t) :
    stateAfter (ts.take (k + 1)) = (runStep (stateAfter (ts.take k)) t).1 := by
  rw [stateAfter, take_succ_of_get? ts k t h, runTicks_fst_append]
  simp [runTicks, stateAfter]

/-- A tick can fire exactly `onElected` only from a non-leader state, and
it then leaves the flag set. -/
theorem runStep_elected {s : Bool} {t : TickResult}
    (h : (runStep s t).2 = [CbEvent.elected]) :
    s = false ∧ (runStep s t).1 = true := by
  cases t with
  | err => simp [runStep] at h
  | ok a => cases s <;> cases a <;> simp [runStep] at h ⊢

/-- C10: within one run of the election loop, `onElected` never fires
twice without an intervening demotion: if ticks `i < j` both fire
`onElected`, the agent is holder right after tick `i` and is back to
candidate just before tick `j`. -/
theorem c10_no_repeated_elected (ts : List TickResult) (i j : Nat)
    (_hij : i < j) (hi : electedAt ts i) (hj : electedAt ts j) :
    stateAfter (ts.take (i + 1)) = true ∧ stateAfter (ts.take j) = false := by
  obtain ⟨ti, hti, hei⟩ := hi
  obtain ⟨tj, htj, hej⟩ := hj
  refine ⟨?_, (runStep_elected hej).1⟩
  rw [stateAfter_take_succ ts i ti hti]
  exact (runStep_elected hei).2

/-- Witness for C10 on the concrete run acquire, error-demote,
re-acquire. -/
theorem c10_witness :
    stateAfter ([TickResult.ok true, TickResult.err,
      TickResult.ok true].take 1) = true ∧
    stateAfter ([TickResult.ok true, TickResult.err,
      TickResult.ok true].take 2) = false :=
  c10_no_repeated_elected [TickResult.ok true, TickResult.err,
      TickResult.ok true] 0 2 (by decide)
    ⟨TickResult.ok true, rfl, rfl⟩ ⟨TickResult.ok true, rfl, rfl⟩

/-- C1 is refuted by the error path of `Run`: after acquiring, a tick
whose conditional update fails with an error demotes the local state from
Holder to Candidate, yet no `onLost` callback fires anywhere in the run
(the error branch only sets the flag and continues). -/
theorem c1_counterexample :
    stateAfter [TickResult.ok true] = true ∧
    stateAfter [TickResult.ok true, TickResult.err] = false ∧
    CbEvent.lost ∉ runLoop [TickResult.ok true, TickResult.err] := by
  decide

/-- C1 amended: every Candidate→Holder transition fires `onElected`; a
tick that returns ok-but-not-acquired while holder fires `onLost`; but a
tick returning an error (for example a failed conditional update) demotes
to Candidate without firing `onLost`.  Context cancellation fires
`onLost` iff the flag is still set. -/
theorem c1_callbacks :
    (∀ (s : Bool) (t : TickResult),
      (s = false → (runStep s t).1 = true →
        (runStep s t).2 = [CbEvent.elected]) ∧
      (s = true → t = TickResult.ok false →
        (runStep s t).2 = [CbEvent.lost]) ∧
      (s = true → t = TickResult.err →
        (runStep s t).1 = false ∧ (runStep s t).2 = [])) ∧
    (∀ ts : List TickResult, stateAfter ts = true →
      runLoop ts = eventsOf ts ++ [CbEvent.lost]) := by
  constructor
  · intro s t
    refine ⟨?_, ?_, ?_⟩
    · intro hs ht
      cases t with
      | err => simp [runStep] at ht
      | ok a => subst hs; cases a <;> simp_all [runStep]
    · intro hs ht; subst hs; subst ht; simp [runStep]
    · intro hs ht; subst hs; subst ht; simp [runStep]
  · intro ts h; simp [runLoop, h]

/-- Witness for the amended C1 at concrete inputs: electing from a fresh
state fires `onElected`, losing the lease to another holder fires
`onLost`, an errored renewal demotes silently, and cancellation appends a
final `onLost`. -/
theorem c1_callbacks_witness :
    (runStep false (TickResult.ok true)).2 = [CbEvent.elected] ∧
    (runStep true (TickResult.ok false)).2 = [CbEvent.lost] ∧
    ((runStep true TickResult.err).1 = false ∧
      (runStep true TickResult.err).2 = []) ∧
    runLoop [TickResult.ok true] =
      eventsOf [TickResult.ok true] ++ [CbEvent.lost] :=
  ⟨(c1_callbacks.1 false (TickResult.ok true)).1 rfl rfl,
   (c1_callbacks.1 true (TickResult.ok false)).2.1 rfl rfl,
   (c1_callbacks.1 true TickResult.err).2.2 rfl rfl,
   c1_callbacks.2 [TickResult.ok true] rfl⟩

/-! ## Go string primitives

The coordinator and follower use `strings.TrimSpace`, `strings.Split`,
`strings.TrimPrefix`, `strings.HasPrefix` and `path/filepath` joining.
They are embedded here on `String`, with the algorithms working on the
underlying character lists. -/

/-- Go `unicode.IsSpace`: the Unicode White_Space code points. -/
def isGoSpace (c : Char) : Bool :=
  c = ' ' || c = '\t' || c = '\n' || c = '\x0b' || c = '\x0c' || c = '\r' ||
  c = '\x85' || c = '\xa0' || c = Char.ofNat 0x1680 ||
  (0x2000 ≤ c.toNat && c.toNat ≤ 0x200a) || c = Char.ofNat 0x2028 ||
  c = Char.ofNat 0x2029 || c = Char.ofNat 0x202f || c = Char.ofNat 0x205f ||
  c = Char.ofNat 0x3000

/-- Strip the maximal whitespace suffix from a character list (the right
half of Go `strings.TrimSpace`). -/
def rstripChars : List Char → List Char
  | [] => []
  | c :: cs =>
    match rstripChars cs with
    | [] => if isGoSpace c then [] else [c]
    | r => c :: r

/-- Go `strings.TrimSpace`: drop leading and trailing whitespace. -/
def goTrimSpace (s : String) : String :=
  ⟨rstripChars (s.data.dropWhile isGoSpace)⟩

/-- Go `strings.Split(s, string(sep))` for a one-character separator.
Like Go, splitting the empty string yields one empty field. -/
def goSplit (sep : Char) (s : String) : List String :=
  (s.data.splitOn sep).map String.mk

/-- Go `strings.HasPrefix`. -/
def goStartsWith (s pre : String) : Bool := pre.data.isPrefixOf s.data

/-- Go `strings.TrimPrefix`. -/
def goTrimLeading (s pre : String) : String :=
  if goStartsWith s pre then ⟨s.data.drop pre.data.length⟩ else s

/-- One step of the element scan inside Go `path.Clean`: empty and `.`
elements are dropped, `..` pops the previous element (or is dropped at
the root of a rooted path, or kept at the head of a relative path), and
any other element is pushed.  The accumulator holds the output elements
in reverse order. -/
def cleanStep (rooted : Bool) (acc : List (List Char)) (comp : List Char) :
    List (List Char) :=
  if comp = [] || comp = ['.'] then acc
  else if comp = ['.', '.'] then
    match acc with
    | [] => if rooted then [] else [['.', '.']]
    | h :: t => if h = ['.', '.'] then comp :: acc else t
  else comp :: acc

/-- Go `path.Clean` (equal to `filepath.Clean` on slash-separated
systems): lexical simplification of a path. -/
def goPathClean (s : String) : String :=
  if s.data = [] then "." else
  let rooted := s.data.head? = some '/'
  let comps := (s.data.splitOn '/').foldl (cleanStep rooted) []
  let out := (['/'] : List Char).intercalate comps.reverse
  if rooted then ⟨'/' :: out⟩
  else if out = [] then "." else ⟨out⟩

/-- Go `filepath.Join(a, b)`: concatenate the non-empty elements with a
separator and clean the result. -/
def goFilepathJoin (a b : String) : String :=
  if a = "" && b = "" then ""
  else if a = "" then goPathClean b
  else if b = "" then goPathClean a
  else goPathClean ⟨a.data ++ '/' :: b.data⟩

/-! ## Coordinator model server

An HTTP handler is embedded as a function from the request (and the
file-system state it consults) to the ordered list of writes it performs
on the `ResponseWriter`.  Following Go semantics, the response status is
the first explicitly written header, or `200` if a body write comes
first, and the body is the concatenation of the chunks. -/

/-- The immediate directory listings and the file contents visible to the
server, keyed by absolute path. -/
structure FileSystem where
  dirs : List (String × List String)
  files : List (String × String)
  deriving DecidableEq

/-- Go `os.ReadDir`: the immediate entry names of a directory, or an
error (`none`). -/
def readDir (fs : FileSystem) (p : String) : Option (List String) :=
  fs.dirs.lookup p

/-- Go `os.Open` followed by reading the content: the bytes of a file, or
an error (`none`). -/
def openFile (fs : FileSystem) (p : String) : Option String :=
  fs.files.lookup p

/-- HTTP request methods distinguished by the handlers. -/
inductive Method where
  | GET
  | POST
  | PUT
  | DELETE
  deriving DecidableEq, Repr

/-- One write performed on the `ResponseWriter`: an explicit status
header, a `Location` header field, or a body chunk. -/
inductive WriteAct where
  | header (status : Nat)
  | location (url : String)
  | chunk (s : String)
  deriving DecidableEq, Repr

/-- Go `http.Error(w, msg, status)`: write the status header and the
message followed by a newline. -/
def httpError (status : Nat) (msg : String) : List WriteAct :=
  [.header status, .chunk (msg ++ "\n")]

/-- The observable response: Go locks the status in at the first write
(an explicit header, or `200` at the first body write). -/
structure HttpResponse where
  status : Nat
  body : String
  deriving DecidableEq, Repr

/-- The status sent for a sequence of writes (setting a header field
such as `Location` does not lock the status in). -/
def firstStatus : List WriteAct → Nat
  | [] => 200
  | .header st :: _ => st
  | .location _ :: rest => firstStatus rest
  | .chunk _ :: _ => 200

/-- The body chunks of a sequence of writes. -/
def bodyChunks (acts : List WriteAct) : List String :=
  acts.filterMap fun a =>
    match a with
    | .chunk c => some c
    | .header _ => none
    | .location _ => none

/-- Assemble the observable response from the writes. -/
def respond (acts : List WriteAct) : HttpResponse :=
  ⟨firstStatus acts, String.join (bodyChunks acts)⟩

/-- Embeds `ModelServer.handleHealth`: non-GET gets `405`, otherwise
`200` with body `OK\n`. -/
def handleHealth (method : Method) : List WriteAct :=
  if method ≠ Method.GET then httpError 405 "Method is not allowed"
  else [.header 200, .chunk "OK\n"]

/-- Embeds `ModelServer.handleListModels`.  Faithful to the source: the
non-GET branch writes the `405` error but does not return, so the
handler then still reads the directory and appends the listing (or a
`500` error) to the response. -/
def handleListModels (modelPath : String) (fs : FileSystem)
    (method : Method) : List WriteAct :=
  (if method ≠ Method.GET then httpError 405 "Method is not allowed"
   else []) ++
  match readDir fs modelPath with
  | none => httpError 500 "Failed to list models"
  | some files => files.map fun f => WriteAct.chunk (f ++ "\n")

/-- Embeds `ModelServer.handleDownloadModel`: strip the `/models/`
prefix, reject an empty relative path, join with the model root, reject
joined paths that do not start with the model root (the guard of the
source is a plain string-prefix test), then serve the file. -/
def handleDownloadModel (modelPath : String) (fs : FileSystem)
    (method : Method) (urlPath : String) : List WriteAct :=
  if method ≠ Method.GET then httpError 405 "Method not allowed"
  else
    let relativePath := goTrimLeading urlPath "/models/"
    if relativePath = "" then httpError 400 "File path required"
    else
      let fullPath := goFilepathJoin modelPath relativePath
      if !goStartsWith fullPath modelPath then httpError 400 "Invalid path"
      else
        match openFile fs fullPath with
        | none => httpError 404 "File not found"
        | some content => [WriteAct.header 200, WriteAct.chunk content]

/-- C3 fails on the code at `/models`: a non-GET request gets the `405`
status, but the handler is missing a return after the error write, so it
also reads the directory and appends the listing to the body.  The other
two endpoints return immediately after the `405`. -/
theorem c3_nonget_list_still_lists :
    respond (handleListModels "/models"
        ⟨[("/models", ["a.bin"])], []⟩ Method.POST) =
      { status := 405, body := "Method is not allowed\na.bin\n" } ∧
    respond (handleHealth Method.POST) =
      { status := 405, body := "Method is not allowed\n" } ∧
    respond (handleDownloadModel "/models" ⟨[], []⟩
        Method.POST "/models/a.bin") =
      { status := 405, body := "Method not allowed\n" } := by
  decide

/-- C8: a GET whose path strips to an empty relative path is answered
`400` with `File path required`; the writes are the same for every
file-system state, so the handler decides this before touching the
file system. -/
theorem c8_empty_relative_path (modelPath : String) (fs : FileSystem) :
    handleDownloadModel modelPath fs Method.GET "/models/" =
      httpError 400 "File path required" := by
  rfl

/-! ## Follower file-list parsing

`Follower.getFileList` reads the body of `GET /models` and computes
`strings.Split(strings.TrimSpace(string(body)), "\n")`.  The network
read is abstracted away; the parsing core is embedded verbatim. -/

/-- The parsing core of `Follower.getFileList`. -/
def getFileListParse (body : String) : List String :=
  goSplit '\n' (goTrimSpace body)

theorem data_append (a b : String) : (a ++ b).data = a.data ++ b.data := rfl

theorem mk_data (s : String) : String.mk s.data = s := rfl

theorem join_data (l : List String) :
    (String.join l).data = (l.map String.data).flatten := by
  have aux : ∀ (l : List String) (acc : String),
      (l.foldl (fun r s => r ++ s) acc).data =
        acc.data ++ (l.map String.data).flatten := by
    intro l
    induction l with
    | nil => intro acc; simp
    | cons a t ih => intro acc; simp [ih, data_append]
  exact aux l ""

theorem rstripChars_cons (a : Char) (l : List Char) :
    rstripChars (a :: l) =
      match rstripChars l with
      | [] => if isGoSpace a then [] else [a]
      | r => a :: r := rfl

theorem rstrip_append_space (x : List Char) (c : Char)
    (hc : isGoSpace c = true) : rstripChars (x ++ [c]) = rstripChars x := by
  induction x with
  | nil => simp [rstripChars, hc]
  | cons a x ih =>
    rw [List.cons_append, rstripChars_cons, rstripChars_cons, ih]

theorem rstrip_append_nonspace (x : List Char) (c : Char)
    (hc : isGoSpace c = false) : rstripChars (x ++ [c]) = x ++ [c] := by
  induction x with
  | nil => simp [rstripChars, hc]
  | cons a x ih =>
    rw [List.cons_append, rstripChars_cons, ih]
    cases h : x ++ [c] with
    | nil => simp at h
    | cons u v => rfl

theorem intercalate_cons_of_ne_nil (sep : Char) (a : List Char)
    (z : List (List Char)) (hz : z ≠ []) :
    ([sep] : List Char).intercalate (a :: z) =
      a ++ sep :: ([sep] : List Char).intercalate z := by
  cases z with
  | nil => exact absurd rfl hz
  | cons b t => simp [List.intercalate]

theorem intercalate_concat (sep : Char) (ls : List (List Char))
    (l : List Char) :
    ∃ pre, ([sep] : List Char).intercalate (ls ++ [l]) = pre ++ l := by
  induction ls with
  | nil => exact ⟨[], by simp [List.intercalate]⟩
  | cons a t ih =>
    obtain ⟨pre, hp⟩ := ih
    refine ⟨a ++ sep :: pre, ?_⟩
    rw [List.cons_append,
      intercalate_cons_of_ne_nil sep a (t ++ [l]) (by simp), hp]
    simp

theorem listing_flatten_eq (ls : List (List Char)) (h : ls ≠ []) :
    (ls.map fun l => l ++ ['\n']).flatten =
      (['\n'] : List Char).intercalate ls ++ ['\n'] := by
  induction ls with
  | nil => exact absurd rfl h
  | cons a t ih =>
    cases t with
    | nil => simp [List.intercalate]
    | cons b u =>
      rw [List.map_cons, List.flatten_cons, ih (by simp),
        intercalate_cons_of_ne_nil '\n' a (b :: u) (by simp)]
      simp

/-- C4 is refuted at the empty body: the code splits the trimmed body
unconditionally, and Go `strings.Split` of the empty string yields one
empty field, so an empty `GET /models` body parses to `[""]`, not to the
empty list that the claim states. -/
theorem c4_counterexample :
    getFileListParse "" = [""] ∧ ([""] : List String) ≠ [] := by
  decide

/-- C4 amended: the parser splits the whitespace-trimmed body on
newlines.  On every body in the format the coordinator actually emits
for a non-empty directory (one non-empty, whitespace-free name per line,
each terminated by a newline) the result is exactly the listed names;
but an empty body parses to the one-element list containing the empty
string rather than the empty list, and interior blank lines would be
kept as empty entries rather than ignored. -/
theorem c4_parse_listing :
    getFileListParse "" = [""] ∧
    ∀ files : List String, files ≠ [] →
      (∀ n ∈ files, n.data ≠ [] ∧ ∀ c ∈ n.data, isGoSpace c = false) →
      getFileListParse (String.join (files.map fun n => n ++ "\n")) =
        files := by
  refine ⟨by decide, ?_⟩
  intro files hne hgood
  have hdata : (String.join (files.map fun n => n ++ "\n")).data =
      ((files.map String.data).map fun l => l ++ ['\n']).flatten := by
    rw [join_data, List.map_map, List.map_map]
    rfl
  have hlsne : files.map String.data ≠ [] := by
    simpa using hne
  -- the body keeps the newline-joined names after trimming
  have hflat : ((files.map String.data).map fun l => l ++ ['\n']).flatten =
      (['\n'] : List Char).intercalate (files.map String.data) ++ ['\n'] :=
    listing_flatten_eq _ hlsne
  -- no leading whitespace: the first character of the body is the first
  -- character of the first name
  have hdrop :
      (((files.map String.data).map fun l => l ++ ['\n']).flatten).dropWhile
          isGoSpace =
        ((files.map String.data).map fun l => l ++ ['\n']).flatten := by
    cases files with
    | nil => exact absurd rfl hne
    | cons f rest =>
      obtain ⟨hfne, hfgood⟩ := hgood f (by simp)
      cases hf : f.data with
      | nil => exact absurd hf hfne
      | cons c d =>
        have hc : isGoSpace c = false := hfgood c (by simp [hf])
        simp [hf, List.dropWhile_cons, hc]
  -- no trailing whitespace beyond the final newline: the joined names
  -- end with a non-whitespace character
  have hrstrip :
      rstripChars ((['\n'] : List Char).intercalate (files.map String.data)
          ++ ['\n']) =
        (['\n'] : List Char).intercalate (files.map String.data) := by
    rw [rstrip_append_space _ '\n' (by decide)]
    obtain ⟨init, last, hconcat⟩ :=
      (files.map String.data).eq_nil_or_concat.resolve_left hlsne
    rw [List.concat_eq_append] at hconcat
    obtain ⟨lastStr, hlastStr, hlastData⟩ :
        ∃ n, n ∈ files ∧ n.data = last := by
      have hmem : last ∈ files.map String.data := by
        rw [hconcat]; simp
      obtain ⟨n, hn, hdn⟩ := List.mem_map.mp hmem
      exact ⟨n, hn, hdn⟩
    obtain ⟨hlne, hlgood⟩ := hgood lastStr hlastStr
    rw [hlastData] at hlne
    obtain ⟨y, c, hy⟩ := last.eq_nil_or_concat.resolve_left hlne
    rw [List.concat_eq_append] at hy
    have hc : isGoSpace c = false := by
      refine hlgood c ?_
      rw [hlastData, hy]; simp
    obtain ⟨pre, hpre⟩ := intercalate_concat '\n' init last
    rw [hconcat, hpre, hy, ← List.append_assoc,
      rstrip_append_nonspace _ c hc]
  -- splitting undoes the newline join
  have hsplit : ((['\n'] : List Char).intercalate
        (files.map String.data)).splitOn '\n' = files.map String.data := by
    refine List.splitOn_intercalate (files.map String.data) '\n' ?_ hlsne
    intro l hl hmem
    obtain ⟨n, hn, rfl⟩ := List.mem_map.mp hl
    have := (hgood n hn).2 '\n' hmem
    simp [isGoSpace] at this
  simp only [getFileListParse, goSplit, goTrimSpace, hdata, hdrop]
  rw [hflat, hrstrip]
  rw [hsplit, List.map_map]
  simp [Function.comp_def, mk_data]

/-- Witness for the amended C4 at a concrete two-file listing. -/
theorem c4_parse_listing_witness :
    getFileListParse
        (String.join (["config.json", "model.bin"].map fun n => n ++ "\n")) =
      ["config.json", "model.bin"] :=
  c4_parse_listing.2 ["config.json", "model.bin"] (by decide) (by decide)

/-! ## Request routing: the ServeMux in front of the handlers

`ModelServer.Start` registers the three handlers on an `http.ServeMux`.
For the request methods modelled here the mux first canonicalizes the
request path with `cleanPath` (`path.Clean` with a trailing slash of the
input preserved); when the canonical path differs from the requested one
it answers `301 Moved Permanently` towards the canonical location
without invoking any handler.  Clean paths are routed to the longest
matching registered pattern (`/health`, `/models`, and the `/models/`
subtree); unmatched paths get the standard not-found response. -/

/-- The action `ensureModel` takes. -/
inductive EnsureAction where
  | skip
  | download
  deriving DecidableEq, Repr

/-- Embeds `Coordinator.modelExists`: `os.ReadDir` errors count as
absent, otherwise the directory must hold at least one entry. -/
def modelExists (fs : FileSystem) (modelPath : String) : Bool :=
  match readDir fs modelPath with
  | none => false
  | some files => decide (files.length > 0)

/-- Embeds `Coordinator.ensureModel` up to the choice between skipping
and invoking the registry download. -/
def ensureModel (fs : FileSystem) (modelPath : String) : EnsureAction :=
  if modelExists fs modelPath then .skip else .download

/-- C6: when the model directory already contains at least one entry,
`ensureModel` skips the download, so a restarted coordinator over a
non-empty directory never re-downloads. -/
theorem c6_nonempty_dir_skips_download (fs : FileSystem) (modelPath : String)
    (entries : List String) (hread : readDir fs modelPath = some entries)
    (hne : entries ≠ []) :
    ensureModel fs modelPath = EnsureAction.skip := by
  have hpos : entries.length > 0 := List.length_pos.mpr hne
  unfold ensureModel modelExists
  rw [hread]
  simp [hpos]

/-- Witness for C6 on a directory holding one file. -/
theorem c6_witness :
    ensureModel ⟨[("/models", ["weights.bin"])], []⟩ "/models" =
      EnsureAction.skip :=
  c6_nonempty_dir_skips_download _ _ ["weights.bin"] rfl (by decide)

/-! ## vllm launcher lifecycle

`vllm.Server` holds a `cmd *exec.Cmd` that is nil until `Start` assigns
it; `cmd.Process` stays nil if the process failed to spawn.  `Stop`
returns nil without doing anything unless both are non-nil, in which
case it sends SIGTERM. -/

/-- Embeds the fields of `vllm.Config` consulted by the lifecycle
functions (the float-valued GPU memory fraction only feeds the argument
formatting, which is not modelled). -/
structure VllmConfig where
  modelPath : String
  host : String
  port : Int
  tensorParallelSize : Int
  maxModelLen : Int
  dtype : String
  extraArgs : List String
  deriving DecidableEq, Repr

/-- An operating-system process (`exec.Cmd.Process`). -/
structure OsProcess where
  pid : Nat
  deriving DecidableEq, Repr

/-- Embeds `exec.Cmd`: the process is nil until the spawn succeeds. -/
structure ExecCmd where
  process : Option OsProcess
  deriving DecidableEq, Repr

/-- The signal `Stop` may send. -/
inductive Signal where
  | sigterm
  deriving DecidableEq, Repr

/-- Embeds `vllm.Server`: `cmd` is nil until `Start` runs. -/
structure VllmServer where
  config : VllmConfig
  cmd : Option ExecCmd
  deriving DecidableEq, Repr

/-- Embeds `vllm.NewServer`: only the config is set. -/
def NewServer (config : VllmConfig) : VllmServer := ⟨config, none⟩

/-- Embeds `vllm.Server.Start`: assigns `cmd`; the spawn outcome (the
process, or nil on failure) is an input of the environment. -/
def vllmStart (s : VllmServer) (spawn : Option OsProcess) : VllmServer :=
  { s with cmd := some ⟨spawn⟩ }

/-- Embeds `vllm.Server.Stop`: the signal sent, if any.  When `cmd` or
`cmd.Process` is nil the function returns nil without signalling; the
Go error result is nil exactly in that branch, and otherwise is the
result of the SIGTERM delivery. -/
def vllmStop (s : VllmServer) : Option Signal :=
  match s.cmd with
  | none => none
  | some cmd =>
    match cmd.process with
    | none => none
    | some _ => some Signal.sigterm

/-- C9: `Stop` on a launcher whose `Start` never ran sends no signal and
returns nil, and whenever `Stop` signals at all the signal is SIGTERM
and a process had actually been started. -/
theorem c9_stop_without_start :
    (∀ config : VllmConfig, vllmStop (NewServer config) = none) ∧
    (∀ s : VllmServer, (vllmStop s).isSome = true →
      ∃ cmd p, s.cmd = some cmd ∧ cmd.process = some p ∧
        vllmStop s = some Signal.sigterm) := by
  constructor
  · intro config; rfl
  · intro s h
    rcases hs : s.cmd with _ | cmd
    · rw [vllmStop, hs] at h; simp at h
    · rcases hp : cmd.process with _ | p
      · rw [vllmStop, hs] at h
        simp [hp] at h
      · exact ⟨cmd, p, rfl, hp, by rw [vllmStop, hs]; simp [hp]⟩

/-- Witness for C9: a fresh launcher signals nothing, and a launcher
with a spawned process signals SIGTERM. -/
theorem c9_witness :
    vllmStop (NewServer ⟨"/models", "0.0.0.0", 8000, 1, 0, "auto", []⟩) =
      none ∧
    ∃ cmd p,
      (vllmStart (NewServer ⟨"/models", "0.0.0.0", 8000, 1, 0, "auto", []⟩)
          (some ⟨42⟩)).cmd = some cmd ∧
      cmd.process = some p ∧
      vllmStop (vllmStart
          (NewServer ⟨"/models", "0.0.0.0", 8000, 1, 0, "auto", []⟩)
          (some ⟨42⟩)) = some Signal.sigterm :=
  ⟨c9_stop_without_start.1 _, c9_stop_without_start.2 _ (by decide)⟩

/-! ## Controller: `desiredDeployment` and `Reconcile`

Kubernetes objects are embedded structurally; the `Namespace` field is
called `ns` because `namespace` is a Lean keyword.  Replica counts
(int32 in the source) are `Int`; the modelled values never overflow. -/

/-- Embeds `LLMServiceSpec` (api/v1). -/
structure LLMServiceSpec where
  model : String
  replicas : Int
  gpuPerReplica : Int
  cacheStrategy : String
  image : String
  gpuMemory : String
  deriving DecidableEq, Repr

/-- Embeds `LLMServiceCondition`; the timestamp is microseconds. -/
structure LLMServiceCondition where
  type : String
  status : String
  reason : String
  message : String
  lastUpdateTime : Int
  deriving DecidableEq, Repr

/-- Embeds `LLMServiceStatus`. -/
structure LLMServiceStatus where
  availableReplicas : Int
  conditions : List LLMServiceCondition
  cacheCoordinator : String
  deriving DecidableEq, Repr

/-- Embeds an `LLMService` object with its metadata. -/
structure LLMService where
  name : String
  ns : String
  spec : LLMServiceSpec
  status : LLMServiceStatus
  deriving DecidableEq, Repr

/-- An environment value of the pod template: a literal or a downward
API field reference. -/
inductive EnvVarValue where
  | literal (value : String)
  | fieldRef (fieldPath : String)
  deriving DecidableEq, Repr

/-- Embeds `corev1.EnvVar` as used by the controller. -/
structure EnvVar where
  name : String
  value : EnvVarValue
  deriving DecidableEq, Repr

/-- Embeds `corev1.ContainerPort`. -/
structure ContainerPort where
  name : String
  containerPort : Int
  deriving DecidableEq, Repr

/-- Embeds `corev1.VolumeMount`. -/
structure VolumeMount where
  name : String
  mountPath : String
  deriving DecidableEq, Repr

/-- The only volume source the controller emits. -/
inductive VolumeSource where
  | emptyDir
  deriving DecidableEq, Repr

/-- Embeds `corev1.Volume`. -/
structure Volume where
  name : String
  source : VolumeSource
  deriving DecidableEq, Repr

/-- Embeds `corev1.Container` as used by the controller. -/
structure Container where
  name : String
  image : String
  imagePullPolicy : String
  env : List EnvVar
  ports : List ContainerPort
  volumeMounts : List VolumeMount
  deriving DecidableEq, Repr

/-- Embeds the pod spec of the template. -/
structure PodSpec where
  containers : List Container
  volumes : List Volume
  serviceAccountName : String
  deriving DecidableEq, Repr

/-- Embeds `corev1.PodTemplateSpec`. -/
structure PodTemplateSpec where
  labels : List (String × String)
  spec : PodSpec
  deriving DecidableEq, Repr

/-- Embeds `appsv1.DeploymentSpec`. -/
structure DeploymentSpec where
  replicas : Int
  selectorMatchLabels : List (String × String)
  template : PodTemplateSpec
  deriving DecidableEq, Repr

/-- Embeds `appsv1.DeploymentStatus`. -/
structure DeploymentStatus where
  readyReplicas : Int
  deriving DecidableEq, Repr

/-- Embeds `appsv1.Deployment` with its metadata. -/
structure Deployment where
  name : String
  ns : String
  spec : DeploymentSpec
  status : DeploymentStatus
  deriving DecidableEq, Repr

/-- Embeds `LLMServiceReconciler.desiredDeployment`: the deterministic
derivation of the workload object from the custom resource.  The status
carries the Go zero value. -/
def desiredDeployment (llm : LLMService) : Deployment :=
  let labels := [("app", "llm-inference"), ("llm_cr", llm.name)]
  let configMapName := llm.name ++ "-cache"
  { name := llm.name ++ "-deployment"
    ns := llm.ns
    spec :=
      { replicas := llm.spec.replicas
        selectorMatchLabels := labels
        template :=
          { labels := labels
            spec :=
              { containers := [
                  { name := "agent"
                    image := llm.spec.image
                    imagePullPolicy := "IfNotPresent"
                    env := [
                      ⟨"POD_NAME", .fieldRef "metadata.name"⟩,
                      ⟨"POD_NAMESPACE", .fieldRef "metadata.namespace"⟩,
                      ⟨"CONFIGMAP_NAME", .literal configMapName⟩,
                      ⟨"MODEL_PATH", .literal "/models"⟩,
                      ⟨"MODEL_REPO", .literal llm.spec.model⟩]
                    ports := [⟨"vllm", 8000⟩, ⟨"model-server", 8080⟩]
                    volumeMounts := [⟨"model-storage", "/models"⟩] }]
                volumes := [⟨"model-storage", .emptyDir⟩]
                serviceAccountName := "kubeinfer-agent" } } }
    status := { readyReplicas := 0 } }

/-- The cluster contents a reconcile invocation can read, keyed by
(namespace, name). -/
structure Cluster where
  llmservices : List ((String × String) × LLMService)
  deployments : List ((String × String) × Deployment)

/-- Read an `LLMService` by key (the reconciler's first Get). -/
def getLLMService (cl : Cluster) (key : String × String) : Option LLMService :=
  cl.llmservices.lookup key

/-- Read a `Deployment` by key (the reconciler's second Get). -/
def getDeployment (cl : Cluster) (key : String × String) : Option Deployment :=
  cl.deployments.lookup key

/-- The scheduler-visible result of a reconcile invocation. -/
inductive ReconcileResult where
  | ok (requeue : Bool)
  deriving DecidableEq, Repr

/-- The status-subresource write a reconcile invocation commits. -/
structure StatusWrite where
  key : String × String
  availableReplicas : Int
  deriving DecidableEq, Repr

/-- Everything a reconcile invocation returns and writes. -/
structure ReconcileOutcome where
  result : ReconcileResult
  created : Option Deployment
  statusWrite : Option StatusWrite
  deriving DecidableEq, Repr

/-- Embeds `LLMServiceReconciler.Reconcile` on the success paths: the
platform reads and writes are modelled as succeeding (the claim under
verification conditions on exactly that).  Absent custom resource: done.
Absent deployment: create the derived one and requeue.  Present: copy
the ready-replica count read in this same invocation into the status and
commit it with a status-only write. -/
def reconcile (cl : Cluster) (req : String × String) : ReconcileOutcome :=
  match getLLMService cl req with
  | none => ⟨.ok false, none, none⟩
  | some llm =>
    let deployment := desiredDeployment llm
    match getDeployment cl (deployment.ns, deployment.name) with
    | none => ⟨.ok true, some deployment, none⟩
    | some found => ⟨.ok false, none,
        some ⟨req, found.status.readyReplicas⟩⟩

/-- C5: when the custom resource and its deployment are both found, the
status write of the invocation carries exactly the ready-replica count
of the deployment object read earlier in the same invocation. -/
theorem c5_status_snapshot (cl : Cluster) (req : String × String)
    (llm : LLMService) (found : Deployment)
    (h1 : getLLMService cl req = some llm)
    (h2 : getDeployment cl
        ((desiredDeployment llm).ns, (desiredDeployment llm).name) =
      some found) :
    (reconcile cl req).statusWrite =
      some ⟨req, found.status.readyReplicas⟩ := by
  unfold reconcile
  rw [h1]
  simp only []
  rw [h2]

/-- Witness for C5 on a one-object cluster whose deployment reports two
ready replicas. -/
theorem c5_witness :
    (reconcile
        ⟨[(("default", "demo"),
           ⟨"demo", "default", ⟨"acme/m-7b", 3, 0, "shared", "img:v1", ""⟩,
            ⟨0, [], ""⟩⟩)],
         [(("default", "demo-deployment"),
           ⟨"demo-deployment", "default",
            ⟨3, [], ⟨[], ⟨[], [], ""⟩⟩⟩, ⟨2⟩⟩)]⟩
        ("default", "demo")).statusWrite =
      some ⟨("default", "demo"), 2⟩ :=
  c5_status_snapshot _ _
    ⟨"demo", "default", ⟨"acme/m-7b", 3, 0, "shared", "img:v1", ""⟩,
      ⟨0, [], ""⟩⟩
    ⟨"demo-deployment", "default", ⟨3, [], ⟨[], ⟨[], [], ""⟩⟩⟩, ⟨2⟩⟩
    rfl rfl

/-- C7: the derived deployment has exactly one container, whose
environment carries the pod's own name and namespace via the downward
API, the coordination-record name `<llmservice>-cache`, the local model
path, and the external model repository, and which exposes exactly the
inference port 8000 and the model-distribution port 8080. -/
theorem c7_pod_template_env_ports (llm : LLMService) :
    ∃ c, (desiredDeployment llm).spec.template.spec.containers = [c] ∧
      EnvVar.mk "POD_NAME" (.fieldRef "metadata.name") ∈ c.env ∧
      EnvVar.mk "POD_NAMESPACE" (.fieldRef "metadata.namespace") ∈ c.env ∧
      EnvVar.mk "CONFIGMAP_NAME" (.literal (llm.name ++ "-cache")) ∈ c.env ∧
      EnvVar.mk "MODEL_PATH" (.literal "/models") ∈ c.env ∧
      EnvVar.mk "MODEL_REPO" (.literal llm.spec.model) ∈ c.env ∧
      c.ports = [⟨"vllm", 8000⟩, ⟨"model-server", 8080⟩] := by
  refine ⟨_, rfl, ?_, ?_, ?_, ?_, ?_, rfl⟩ <;> simp

end KubeInfer
